import Mathlib

/-!
Shallow embedding of the Plan Execution Engine of `src/executor.py`
(classes `ExecutionStep`, `ExecutionPlan`, `StepMetadata`, `PlanExecutor`)
together with the parts of `src/state.py` (`StateManager.get` / `StateManager.set`)
and `src/tools.py` (`ToolResult`, `ToolResultStatus`) that the executor consumes.

Modelling conventions:
* Python values stored in the state store, passed as tool inputs, or produced as
  tool outputs are modelled by the inductive `Value` (None / str / int / bool /
  dict / list).  Model values are inert data, so the `hasattr`/`getattr` branch
  of `PlanExecutor._resolve_value` is modelled only where its outcome is
  decidable from the data: the attributes of `None` are exactly the dunder
  names, so on `None` a path segment not starting with `'_'` faithfully takes
  the `Cannot resolve path` branch, while an underscore-led segment on `None`
  (e.g. `__class__`, which `getattr` would resolve to a non-data object) and
  any attribute lookup on another non-dict value (which does carry plain-named
  attributes such as `str.upper`) are outside the model and are mapped to a
  distinguished `unmodelled attribute navigation` outcome that no theorem
  below depends on.
* The state store (`StateManager`) is an association list of key/value pairs.
  `StateManager.set` returns a bool: `False` when the write is rejected
  (pydantic `StateEntry` validation or schema validation), in which case the
  store is left unchanged.  All rejection causes are folded into an oracle
  `rej : String → Value → Bool` supplied by the environment.  The executor
  source discards the returned bool at every call site, and so does `stSet`.
* `datetime.now()` is modelled by a monotone tick counter, `asyncio.sleep d`
  by appending `d` to a trace of performed sleeps, and tool invocation
  (including `asyncio.wait_for` timeouts and raised exceptions) by an oracle
  `tools : String → VDict → Nat → ToolOutcome` receiving the
  tool name, the resolved input and the 0-indexed attempt number.
* Raised Python exceptions are modelled by `Except.error msg`.
-/

/-! Model of a Python value as stored in state / passed to tools.  Dicts and
lists are their own inductive types (`VDict`, `VList`) so that the recursive
resolver below is structurally recursive and computes definitionally. -/
mutual
/-- Model of a Python value. -/
inductive Value where
  | vnull : Value
  | vstr  : String → Value
  | vnat  : Nat → Value
  | vbool : Bool → Value
  | vdict : VDict → Value
  | vlist : VList → Value
deriving Repr

/-- A Python dict (insertion-ordered key/value sequence). -/
inductive VDict where
  | nil : VDict
  | cons : String → Value → VDict → VDict
deriving Repr

/-- A Python list. -/
inductive VList where
  | nil : VList
  | cons : Value → VList → VList
deriving Repr
end

/-- `d.get(k)` on a model dict (first binding wins, like a Python dict whose
keys are unique). -/
def VDict.lookup : VDict → String → Option Value
  | .nil, _ => none
  | .cons k' v rest, k => if k' = k then some v else rest.lookup k

/-- Build a model dict from a list literal. -/
def VDict.ofList : List (String × Value) → VDict
  | [] => .nil
  | (k, v) :: rest => .cons k v (VDict.ofList rest)

def VDict.isEmpty : VDict → Bool
  | .nil => true
  | .cons _ _ _ => false

def VList.ofList : List Value → VList
  | [] => .nil
  | v :: rest => .cons v (VList.ofList rest)

def VList.isEmpty : VList → Bool
  | .nil => true
  | .cons _ _ => false

/-- Model of the in-memory contents of `StateManager._state` (key ↦ value). -/
abbrev Store := List (String × Value)

/-- `StateManager.get key` — returns the stored value, `None` when absent
(the executor never passes an explicit default). -/
def storeGet : Store → String → Option Value
  | [], _ => none
  | (k', v) :: rest, k => if k' = k then some v else storeGet rest k

/-- `StateManager.set key value` — either rejected (store unchanged, returns
`false`) or stored (returns `true`).  `rej` is the oracle folding together
every cause that makes the real `set` return `False`. -/
def storeSet (rej : String → Value → Bool) (s : Store) (k : String) (v : Value) :
    Store × Bool :=
  if rej k v then (s, false)
  else ((k, v) :: s.filter (fun p => !(p.1 == k)), true)

theorem storeGet_filter_ne (s : Store) (k k' : String) (h : k ≠ k') :
    storeGet (s.filter (fun p => !(p.1 == k))) k' = storeGet s k' := by
  induction s with
  | nil => rfl
  | cons p rest ih =>
      by_cases hp : p.1 = k
      · have hb : (p.1 == k) = true := by simpa using hp
        have hne : ¬ (p.1 = k') := fun he => h (hp ▸ he)
        simp [List.filter, hb, storeGet, hne, ih]
      · have hb : (p.1 == k) = false := by simpa using hp
        have hkk : (k' == k) = false := by simpa using fun he => h he.symm
        by_cases hk' : p.1 = k'
        · simp [List.filter, hb, storeGet, hk', hkk]
        · simp [List.filter, hb, storeGet, hk', hkk, ih]

theorem storeGet_storeSet_ne (rej : String → Value → Bool) (s : Store)
    (k k' : String) (v : Value) (h : k ≠ k') :
    storeGet (storeSet rej s k v).1 k' = storeGet s k' := by
  unfold storeSet
  split
  · rfl
  · simp only [storeGet]
    rw [if_neg h]
    exact storeGet_filter_ne s k k' h

/-!  ## Variable resolution (`PlanExecutor._resolve_value` / `_resolve_variables`) -/

/-- Model of the regex fragment `[^}]+\}` applied at the current position:
consume characters up to the first `}`; `none` when no `}` follows. -/
def upToBrace : List Char → Option (List Char)
  | [] => none
  | c :: rest =>
    if c = '}' then some []
    else (upToBrace rest).map (c :: ·)

/-- Model of `re.search(r'\$\{([^}]+)\}', value)`: leftmost occurrence of
`${<nonempty>}` wins; yields `group(1)`.  When the candidate at a position
fails (`${}` or unterminated), the scan restarts one character later, exactly
like `re.search`. -/
def scanRef : List Char → Option (List Char)
  | [] => none
  | c :: rest =>
    if c = '$' then
      match rest with
      | [] => none
      | c2 :: body =>
        if c2 = '{' then
          match upToBrace body with
          | some content => if content.isEmpty then scanRef rest else some content
          | none => scanRef rest
        else scanRef rest
    else scanRef rest

/-- Does the segment name start with an underscore?  The attributes of
Python `None` are exactly the dunder names, so `hasattr(None, p)` is false
whenever `p` does not start with `'_'`. -/
def headIsUnderscore (s : String) : Bool :=
  match s.toList with
  | '_' :: _ => true
  | _ => false

/-- Dotted-path navigation: the `for part in parts[1:]` loop of
`_resolve_value`.  A dict looks the segment up (missing segment ↦ `None` via
`dict.get`).  On `None`, a segment not starting with `'_'` is provably no
attribute (`None` bears only dunders), so the loop faithfully raises
`Cannot resolve path`; an underscore-led segment on `None` may hit a dunder
(`getattr` would then yield a non-data object the value model cannot
represent), and non-`None` non-dict values carry type-specific plain-named
attributes (`str.upper`, `list.append`, …) whose presence the data model
cannot decide — both cases are mapped to a distinguished
`unmodelled attribute navigation` outcome, and no theorem in this file
relies on that branch. -/
def navigatePath (varPath : String) : Value → List String → Except String Value
  | cur, [] => .ok cur
  | cur, p :: rest =>
    match cur with
    | .vdict d => navigatePath varPath ((VDict.lookup d p).getD .vnull) rest
    | .vnull =>
      if headIsUnderscore p then
        .error ("unmodelled attribute navigation: " ++ varPath)
      else .error ("Cannot resolve path: " ++ varPath)
    | _ => .error ("unmodelled attribute navigation: " ++ varPath)

/-- Python `var_path.split('.')` on the character list (single-character
separator): `""` splits to `[""]`, `"a.b"` to `["a", "b"]`, `"a."` to
`["a", ""]`. -/
def splitDot : List Char → List (List Char)
  | [] => [[]]
  | c :: rest =>
    if c = '.' then [] :: splitDot rest
    else
      match splitDot rest with
      | [] => [[c]]
      | g :: gs => (c :: g) :: gs

/-- Resolution of an extracted variable path (the part of `_resolve_value`
after a regex match): dotted paths (`'.' in var_path`) navigate from the
state value of the first segment (missing first segment ↦ `None`), simple
keys are looked up directly and missing keys raise
`Variable not found in state`. -/
def resolvePath (store : Store) (varPath : String) : Except String Value :=
  if varPath.toList.contains '.' then
    match (splitDot varPath.toList).map String.mk with
    | [] => .ok .vnull
    | p0 :: rest => navigatePath varPath ((storeGet store p0).getD .vnull) rest
  else
    match storeGet store varPath with
    | none => .error ("Variable not found in state: " ++ varPath)
    | some v => .ok v

/-- `PlanExecutor._resolve_value`: scan for the first `${...}` reference; a
string without one is returned unchanged, otherwise the whole string resolves
to the value of the first reference. -/
def resolve_value (store : Store) (s : String) : Except String Value :=
  match scanRef s.toList with
  | none => .ok (.vstr s)
  | some pathChars => resolvePath store (String.mk pathChars)

/-- List items inside a step input: strings are resolved, anything else is
passed through unchanged (`_resolve_variables`, list branch). -/
def resolveItem (store : Store) (v : Value) : Except String Value :=
  match v with
  | .vstr s => resolve_value store s
  | x => .ok x

def resolveList (store : Store) : VList → Except String VList
  | .nil => .ok .nil
  | .cons v rest =>
    match resolveItem store v with
    | .error e => .error e
    | .ok v' =>
      match resolveList store rest with
      | .error e => .error e
      | .ok rest' => .ok (.cons v' rest')

/-- `PlanExecutor._resolve_variables`: resolve each entry of a step input —
strings via `_resolve_value`, nested dicts recursively, lists item-wise
(non-string items pass through unchanged), other literals unchanged.  The
first raised error propagates. -/
def resolve_variables (store : Store) : VDict → Except String VDict
  | .nil => .ok .nil
  | .cons k v rest =>
    let rv : Except String Value :=
      match v with
      | .vstr s => resolve_value store s
      | .vdict d =>
        match resolve_variables store d with
        | .ok d' => .ok (.vdict d')
        | .error e => .error e
      | .vlist l =>
        match resolveList store l with
        | .ok l' => .ok (.vlist l')
        | .error e => .error e
      | x => .ok x
    match rv with
    | .error e => .error e
    | .ok rv' =>
      match resolve_variables store rest with
      | .error e => .error e
      | .ok rest' => .ok (.cons k rv' rest')

/-!  ## Data model (`StepStatus`, `StepMetadata`, `ToolResult`, plan types) -/

/-- `StepStatus` enum of `executor.py`. -/
inductive StepStatus where
  | pending | running | complete | failed | skipped
deriving Repr, DecidableEq

/-- The `.value` string of each `StepStatus` member. -/
def StepStatus.toStr : StepStatus → String
  | .pending => "pending"
  | .running => "running"
  | .complete => "complete"
  | .failed => "failed"
  | .skipped => "skipped"

/-- `ToolResultStatus` enum of `tools.py`. -/
inductive ToolResultStatus where
  | success | error | inBetween | warning
deriving Repr, DecidableEq

/-- The `.value` string of each member (`inBetween` models `PARTIAL`). -/
def ToolResultStatus.toStr : ToolResultStatus → String
  | .success => "success"
  | .error => "error"
  | .inBetween => "partial"
  | .warning => "warning"

/-- `ToolResult` of `tools.py`, restricted to the fields the executor reads
(`status`, `data`, `error`, `execution_time`, `tool_name`).  Execution times
are abstract ticks (`Nat`); the executor never computes with them. -/
structure ToolResult where
  tool_name : String
  status : ToolResultStatus
  data : Option Value := none
  error : Option String := none
  execution_time : Option Nat := none
deriving Repr

/-- `ToolResult.error(tool_name, error)` classmethod. -/
def ToolResult.errRes (name msg : String) : ToolResult :=
  { tool_name := name, status := .error, error := some msg }

/-- `ToolResult.success(tool_name, data)` classmethod. -/
def ToolResult.okRes (name : String) (data : Value) (t : Nat) : ToolResult :=
  { tool_name := name, status := .success, data := some data,
    execution_time := some t }

def optNatToValue : Option Nat → Value
  | none => .vnull
  | some n => .vnat n

def optStrToValue : Option String → Value
  | none => .vnull
  | some s => .vstr s

def optValToValue : Option Value → Value
  | none => .vnull
  | some v => v

/-- `result.dict()` as stored under the step-scoped result key. -/
def ToolResult.toValue (r : ToolResult) : Value :=
  .vdict (VDict.ofList
    [("tool_name", .vstr r.tool_name),
     ("status", .vstr r.status.toStr),
     ("data", optValToValue r.data),
     ("error", optStrToValue r.error),
     ("execution_time", optNatToValue r.execution_time)])

/-- `StepMetadata` of `executor.py` — one mutable record per `execute_step`
call, updated in place across retry attempts.  Timestamps are clock ticks. -/
structure StepMetadata where
  status : StepStatus := .pending
  attempts : Nat := 0
  started_at : Option Nat := none
  completed_at : Option Nat := none
  error : Option String := none
  result_status : Option String := none
  execution_time : Option Nat := none
deriving Repr, DecidableEq

/-- `metadata.dict()` as persisted to the state store. -/
def StepMetadata.toValue (m : StepMetadata) : Value :=
  .vdict (VDict.ofList
    [("status", .vstr m.status.toStr),
     ("attempts", .vnat m.attempts),
     ("started_at", optNatToValue m.started_at),
     ("completed_at", optNatToValue m.completed_at),
     ("error", optStrToValue m.error),
     ("result_status", optStrToValue m.result_status),
     ("execution_time", optNatToValue m.execution_time)])

/-- `ExecutionStep` of `executor.py`.  `input` is the raw input mapping
(values may be `${...}` reference strings); `timeout`, when set, is the
timeout in (whole) seconds. -/
structure ExecutionStep where
  step : Nat
  tool : String
  input : VDict
  output_key : String
  description : Option String := none
  retry_count : Nat := 3
  timeout : Option Nat := none
  required : Bool := true
deriving Repr

/-- The `validate_output_key` field validator: after stripping `_`, `-` and
`.` the key must be non-empty and alphanumeric; the accepted key is
lower-cased. -/
def validate_output_key (v : String) : Option String :=
  let stripped := v.toList.filter (fun c => !(c = '_' || c = '-' || c = '.'))
  if stripped ≠ [] && stripped.all (fun c => c.isAlphanum) then
    some (String.mk (v.toList.map Char.toLower))
  else none

/-- Pydantic field constraints of `ExecutionStep` (`retry_count` in `[0,10]`,
`timeout ≥ 1` when present, valid `output_key`): `true` iff the plan model
accepts the step. -/
def ExecutionStep.validFields (s : ExecutionStep) : Bool :=
  s.retry_count ≤ 10 &&
  (match s.timeout with | none => true | some t => 1 ≤ t) &&
  (validate_output_key s.output_key).isSome

/-- `ExecutionPlan` of `executor.py`. -/
structure ExecutionPlan where
  task : String
  steps : List ExecutionStep
  metadata : VDict := .nil
deriving Repr

/-- The `validate_steps` validator of `ExecutionPlan`: the steps list must be
non-empty and the step numbers, in the order given, must equal
`list(range(1, len(v) + 1))`; otherwise a `ValueError` naming the received
sequence is raised (surfaced by pydantic as a construction failure). -/
def validate_steps (v : List ExecutionStep) : Except String (List ExecutionStep) :=
  if v.isEmpty then .error "Plan must have at least one step"
  else
    let step_numbers := v.map (·.step)
    let expected := List.range' 1 v.length
    if step_numbers ≠ expected then
      .error ("Steps must be numbered 1-" ++ toString v.length ++ ", got "
              ++ toString step_numbers)
    else .ok v

def ExecutionStep.toValue (s : ExecutionStep) : Value :=
  .vdict (VDict.ofList
    [("step", .vnat s.step), ("tool", .vstr s.tool),
     ("input", .vdict s.input), ("output_key", .vstr s.output_key),
     ("description", optStrToValue s.description),
     ("retry_count", .vnat s.retry_count),
     ("timeout", optNatToValue s.timeout),
     ("required", .vbool s.required)])

/-- `plan.dict()` as persisted under `execution_plan`. -/
def ExecutionPlan.toValue (p : ExecutionPlan) : Value :=
  .vdict (VDict.ofList
    [("task", .vstr p.task),
     ("steps", .vlist (VList.ofList (p.steps.map ExecutionStep.toValue))),
     ("metadata", .vdict p.metadata)])

/-!  ## The execution environment and threaded state -/

/-- Outcome of one `self.tools.execute_tool` invocation (possibly wrapped in
`asyncio.wait_for`): the tool returns a `ToolResult`, the call times out
(`asyncio.TimeoutError`), or an arbitrary exception is raised. -/
inductive ToolOutcome where
  | ret (r : ToolResult)
  | timeout
  | exn (msg : String)

/-- External collaborators of `PlanExecutor`: the tool oracle (tool name,
resolved input, 0-indexed attempt number) and the write-rejection oracle of
`StateManager.set`. -/
structure Env where
  tools : String → VDict → Nat → ToolOutcome
  rej : String → Value → Bool

structure LogEntry where
  step : Nat
  tool : String
  status : String
  execution_time : Option Nat
  timestamp : Nat
deriving Repr, DecidableEq

/-- Threaded effect state: the store, the in-memory `_execution_log`, the
trace of `asyncio.sleep` durations, and the `datetime.now()` tick counter. -/
structure ExecSt where
  store : Store
  log : List LogEntry := []
  sleeps : List Nat := []
  clock : Nat := 0

/-- One `await self.state.set(k, v)` call as the executor performs it: the
returned bool is discarded, faithfully to every call site in `executor.py`. -/
def stSet (env : Env) (st : ExecSt) (k : String) (v : Value) : ExecSt :=
  { st with store := (storeSet env.rej st.store k v).1 }

/-- `datetime.now()`: current tick, advancing the clock. -/
def stNow (st : ExecSt) : Nat × ExecSt :=
  (st.clock, { st with clock := st.clock + 1 })

/-- The `error` string of the `asyncio.TimeoutError` handler:
`f"Timeout after {step.timeout}s"` — the timeout is a float in the source,
so a whole-second timeout `t` (the only kind the Nat abstraction models)
prints as `t.0`. -/
def timeoutMsg : Option Nat → String
  | none => "Timeout after Nones"
  | some t => "Timeout after " ++ toString t ++ ".0s"

/-!  ## `execute_step` (the per-step retry state machine) -/

/-- The `for attempt in range(step.retry_count)` loop of
`PlanExecutor.execute_step`.  `remaining` counts iterations still to run
(`attempt + remaining = step.retry_count`); `meta` is the single mutable
`StepMetadata` object threaded across attempts.  The second component is the
returned `ToolResult` (`Except.ok`) or the exception re-raised on the final
attempt of the generic handler (`Except.error`). -/
def execStepGo (env : Env) (step : ExecutionStep) (stepKey : String) :
    StepMetadata → Nat → Nat → ExecSt → ExecSt × Except String ToolResult
  | _, _, 0, st =>
    -- fall off the loop: `return ToolResult.error(step.tool, "Max retries exceeded")`
    (st, .ok (ToolResult.errRes step.tool "Max retries exceeded"))
  | meta, attempt, r + 1, st =>
    let (t0, st) := stNow st
    let meta := { meta with status := .running, attempts := attempt + 1,
                            started_at := some t0 }
    let st := stSet env st (stepKey ++ "_metadata") meta.toValue
    match resolve_variables st.store step.input with
    | .error e =>
      -- a raised `ValueError` lands in the generic `except Exception` handler
      let meta := { meta with status := .failed, error := some e }
      if r ≠ 0 then
        let st := { st with sleeps := st.sleeps ++ [2 ^ attempt] }
        execStepGo env step stepKey meta (attempt + 1) r st
      else
        let st := stSet env st (stepKey ++ "_metadata") meta.toValue
        (st, .error e)
    | .ok resolved =>
      match env.tools step.tool resolved attempt with
      | .timeout =>
        let meta := { meta with status := .failed,
                                error := some (timeoutMsg step.timeout) }
        if r ≠ 0 then
          -- `continue` with no backoff sleep
          execStepGo env step stepKey meta (attempt + 1) r st
        else
          let st := stSet env st (stepKey ++ "_metadata") meta.toValue
          (st, .ok (ToolResult.errRes step.tool (timeoutMsg step.timeout)))
      | .exn e =>
        let meta := { meta with status := .failed, error := some e }
        if r ≠ 0 then
          let st := { st with sleeps := st.sleeps ++ [2 ^ attempt] }
          execStepGo env step stepKey meta (attempt + 1) r st
        else
          let st := stSet env st (stepKey ++ "_metadata") meta.toValue
          (st, .error e)
      | .ret result =>
        let (t1, st) := stNow st
        let meta := { meta with completed_at := some t1,
                                execution_time := result.execution_time,
                                result_status := some result.status.toStr }
        if result.status = .error then
          let meta := { meta with status := .failed, error := result.error }
          if r ≠ 0 then
            let st := { st with sleeps := st.sleeps ++ [2 ^ attempt] }
            execStepGo env step stepKey meta (attempt + 1) r st
          else
            let st := stSet env st (stepKey ++ "_metadata") meta.toValue
            (st, .ok result)
        else
          let meta := { meta with status := .complete }
          let st := stSet env st step.output_key (optValToValue result.data)
          let st := stSet env st (stepKey ++ "_metadata") meta.toValue
          let st := stSet env st (stepKey ++ "_result") result.toValue
          let (t2, st) := stNow st
          let st := { st with log := st.log ++
            [{ step := step.step, tool := step.tool, status := "success",
               execution_time := result.execution_time, timestamp := t2 }] }
          (st, .ok result)

/-- `PlanExecutor.execute_step`: fresh `StepMetadata`, `step_key =
f"step_{step.step}"`, then the retry loop. -/
def execute_step (env : Env) (step : ExecutionStep) (st : ExecSt) :
    ExecSt × Except String ToolResult :=
  execStepGo env step ("step_" ++ toString step.step) {} 0 step.retry_count st

/-!  ## `execute_plan` (the orchestrator) -/

/-- The step iteration of `execute_plan`.  Returns the threaded state and
`some e` when a step re-raised exception `e` (in which case `execute_plan`
propagates it and the completion marking is skipped); `none` on a normal loop
exit, which covers both full completion and the `break` after a failed
required step. -/
def execPlanLoop (env : Env) (startStep : Nat) :
    List ExecutionStep → ExecSt → ExecSt × Option String
  | [], st => (st, none)
  | step :: rest, st =>
    if step.step < startStep then
      -- resume path: print and `continue`; nothing is executed or persisted
      execPlanLoop env startStep rest st
    else
      match execute_step env step st with
      | (st, .ok result) =>
        if result.status = .error && step.required then
          -- `break` out of the loop after marking the failure
          (stSet env st "execution_status" (.vstr "failed"), none)
        else
          execPlanLoop env startStep rest st
      | (st, .error e) =>
        let st := stSet env st "execution_status" (.vstr "failed")
        let st := stSet env st "execution_error" (.vstr e)
        (st, some e)

/-- Truthiness of a stored metadata value (`if metadata and ...`). -/
def valueTruthy : Value → Bool
  | .vnull => false
  | .vstr s => !s.isEmpty
  | .vnat n => n ≠ 0
  | .vbool b => b
  | .vdict d => !d.isEmpty
  | .vlist l => !l.isEmpty

/-- `metadata.get("status") == s` on a stored (dict) value. -/
def statusIs (v : Value) (s : String) : Bool :=
  match v with
  | .vdict d =>
    match VDict.lookup d "status" with
    | some (.vstr t) => t == s
    | _ => false
  | _ => false

/-- Execution summary as produced by `_generate_summary`. -/
structure Summary where
  total_steps : Nat
  successful_steps : Nat
  failed_steps : Nat
  execution_log : List LogEntry
  plan : Value
deriving Repr

/-- `PlanExecutor._generate_summary`: count persisted step records with
status `complete` / `failed` over step numbers `1..total`. -/
def generate_summary (plan : ExecutionPlan) (st : ExecSt) : Summary :=
  let total := plan.steps.length
  let counts := (List.range' 1 total).foldl
    (fun (acc : Nat × Nat) i =>
      match storeGet st.store ("step_" ++ toString i ++ "_metadata") with
      | some v =>
        if valueTruthy v && statusIs v "complete" then
          (acc.1 + 1, acc.2)
        else if valueTruthy v && statusIs v "failed" then
          (acc.1, acc.2 + 1)
        else acc
      | none => acc)
    (0, 0)
  { total_steps := total, successful_steps := counts.1,
    failed_steps := counts.2, execution_log := st.log,
    plan := plan.toValue }

/-- `start_from_step or 1` — Python `or` treats `None` and `0` as falsy. -/
def startStepOf : Option Nat → Nat
  | none => 1
  | some 0 => 1
  | some n => n

/-- `PlanExecutor.execute_plan` on an already-constructed `ExecutionPlan`:
persist the plan and a `running` status, iterate the steps, then
unconditionally mark completion (the source runs the completion block even
after the `break` of a failed required step) and return the summary.  A
re-raised step exception propagates (`Except.error`) after `execution_status`
and `execution_error` are persisted. -/
def execute_plan (env : Env) (plan : ExecutionPlan)
    (start_from_step : Option Nat) (st : ExecSt) :
    ExecSt × Except String Summary :=
  let st := stSet env st "execution_plan" plan.toValue
  let st := stSet env st "execution_status" (.vstr "running")
  match execPlanLoop env (startStepOf start_from_step) plan.steps st with
  | (st, some e) => (st, .error e)
  | (st, none) =>
    let st := stSet env st "execution_status" (.vstr "complete")
    let (t, st) := stNow st
    let st := stSet env st "execution_completed_at" (.vnat t)
    (st, .ok (generate_summary plan st))

/-!  ## Concrete fixtures used by the claim theorems -/

/-- A `set` oracle that never rejects a write. -/
def noRej : String → Value → Bool := fun _ _ => false

/-- A `set` oracle that rejects every write (`set` always returns `False`). -/
def allRej : String → Value → Bool := fun _ _ => true

/-- Environment whose every tool invocation returns a tool-level error
result with message `boom`. -/
def envToolErr : Env :=
  { tools := fun name _ _ => .ret (ToolResult.errRes name "boom"), rej := noRej }

/-- Environment whose every tool invocation succeeds with data `7`. -/
def envToolOk : Env :=
  { tools := fun name _ _ => .ret (ToolResult.okRes name (.vnat 7) 1), rej := noRej }

/-- Environment whose every tool invocation times out. -/
def envToolTimeout : Env := { tools := fun _ _ _ => .timeout, rej := noRej }

/-- Environment whose tools succeed but whose every state write is rejected. -/
def envAllRej : Env := { tools := envToolOk.tools, rej := allRej }

/-- Empty initial effect state. -/
def st0 : ExecSt := { store := [] }

/-- Required step 1 with one attempt and no inputs. -/
def fixStep1 : ExecutionStep :=
  { step := 1, tool := "t1", input := .nil, output_key := "out1", retry_count := 1 }

/-- Required step 2 with one attempt and no inputs. -/
def fixStep2 : ExecutionStep :=
  { step := 2, tool := "t2", input := .nil, output_key := "out2", retry_count := 1 }

/-- A two-step plan (both steps required). -/
def fixPlan2 : ExecutionPlan := { task := "demo", steps := [fixStep1, fixStep2] }

/-!  ## C1 -/

/-- C1: for a plan whose required step 1 fails at the tool level, the claim
says iteration stops (true: step 2 is never attempted, its metadata key is
never written) **and** that `execution_status` is `"failed"` when
`execute_plan` returns, with `"complete"` reserved for fully successful runs.
The code violates the second half: after the `break` it unconditionally runs
the completion block, overwriting `execution_status` with `"complete"`.  This
theorem evaluates the embedded code at the failing input. -/
theorem C1_required_failure_final_status :
    storeGet (execute_plan envToolErr fixPlan2 none st0).1.store "step_2_metadata" = none
    ∧ storeGet (execute_plan envToolErr fixPlan2 none st0).1.store "execution_status"
        = some (.vstr "complete") :=
  ⟨rfl, rfl⟩

/-!  ## C4 -/

/-- Step fixture numbered 2 (listed first). -/
def c4StepA : ExecutionStep :=
  { step := 2, tool := "t", input := .nil, output_key := "a" }

/-- Step fixture numbered 1 (listed second). -/
def c4StepB : ExecutionStep :=
  { step := 1, tool := "t", input := .nil, output_key := "b" }

/-- C4 counterexample: the claim says construction succeeds exactly when the
steps list is non-empty and the step numbers **after sorting** equal
`1..len(steps)`.  The list `[2, 1]` is non-empty and is a permutation of
`[1, 2]` (so its sort equals `1..2`), yet `validate_steps` rejects it: the
code compares the numbers in the order given, without sorting. -/
theorem C4_counterexample :
    ([c4StepA, c4StepB] : List ExecutionStep) ≠ []
    ∧ List.map (fun s => s.step) [c4StepA, c4StepB] = [2, 1]
    ∧ List.Perm [2, 1] (List.range' 1 2)
    ∧ validate_steps [c4StepA, c4StepB]
        = .error "Steps must be numbered 1-2, got [2, 1]" :=
  ⟨List.cons_ne_nil _ _, rfl, by decide, rfl⟩

/-- C4 amended: construction succeeds exactly when the steps list is
non-empty and the step numbers **in the order given** equal `1..len(steps)`;
otherwise the construction error names the received sequence (with the
non-empty check taking precedence). -/
theorem C4_amended (v : List ExecutionStep) :
    (validate_steps v = .ok v
      ↔ (v ≠ [] ∧ List.map (fun s => s.step) v = List.range' 1 v.length))
    ∧ (v ≠ [] → List.map (fun s => s.step) v ≠ List.range' 1 v.length →
        validate_steps v = .error ("Steps must be numbered 1-" ++ toString v.length
          ++ ", got " ++ toString (List.map (fun s => s.step) v))) := by
  constructor
  · unfold validate_steps
    by_cases hv : v.isEmpty
    · rw [if_pos hv]
      simp only [List.isEmpty_iff] at hv
      subst hv
      simp
    · rw [if_neg hv]
      simp only [List.isEmpty_iff] at hv
      by_cases hnum : List.map (fun s => s.step) v = List.range' 1 v.length
      · simp [hnum, hv]
      · simp [hnum, hv]
  · intro h1 h2
    unfold validate_steps
    rw [if_neg (by simpa [List.isEmpty_iff] using h1), if_pos h2]

/-- C4 witness: the amended biconditional applied to a valid one-step list
and the error branch applied to the `[2, 1]` list. -/
theorem C4_amended_witness :
    validate_steps [c4StepB] = .ok [c4StepB]
    ∧ validate_steps [c4StepA, c4StepB]
        = .error "Steps must be numbered 1-2, got [2, 1]" :=
  ⟨(C4_amended [c4StepB]).1.mpr ⟨List.cons_ne_nil _ _, rfl⟩,
   (C4_amended [c4StepA, c4StepB]).2 (List.cons_ne_nil _ _) (by decide)⟩

/-!  ## C5 -/

/-- C5 counterexample: executing `fixPlan2` with `start_from_step = 2` under
always-succeeding tools.  The claim says step 1's persisted record shows
status `"skipped"`; in fact nothing at all is persisted for step 1 (its
metadata key is absent), while step 2 executes normally to `"complete"`. -/
theorem C5_counterexample :
    storeGet (execute_plan envToolOk fixPlan2 (some 2) st0).1.store "step_1_metadata" = none
    ∧ (∃ d, storeGet (execute_plan envToolOk fixPlan2 (some 2) st0).1.store "step_2_metadata"
          = some (.vdict d)
        ∧ VDict.lookup d "status" = some (.vstr "complete")) :=
  ⟨rfl, ⟨_, rfl, rfl⟩⟩

/-!  ## C7 -/

/-- C7 counterexample: with an empty store, the dotted reference
`${missing.output}` (absent first segment) raises the path-navigation error
`Cannot resolve path: missing.output`, while the simple reference
`${missing}` raises `Variable not found in state: missing`.  The two error
messages differ, refuting the claim that a missing first segment produces
the same variable-not-found error as a missing simple key. -/
theorem C7_counterexample :
    resolve_value [] "${missing.output}"
        = .error "Cannot resolve path: missing.output"
    ∧ resolve_value [] "${missing}"
        = .error "Variable not found in state: missing"
    ∧ "Cannot resolve path: missing.output"
        ≠ "Variable not found in state: missing" :=
  ⟨rfl, rfl, by decide⟩

/-!  ## C9 -/

/-- C9: a step with `retry_count = 0` makes `execute_step` return the error
result `Max retries exceeded` with the threaded state untouched: the
`for attempt in range(0)` loop never runs, so no tool is invoked (the result
does not depend on the tool oracle) and no metadata record is persisted. -/
theorem C9_zero_retries (env : Env) (step : ExecutionStep) (st : ExecSt)
    (h : step.retry_count = 0) :
    execute_step env step st
      = (st, .ok (ToolResult.errRes step.tool "Max retries exceeded")) := by
  unfold execute_step
  rw [h]
  rfl

/-- Step fixture with `retry_count = 0` (accepted by the plan model). -/
def c9Step : ExecutionStep :=
  { step := 1, tool := "t", input := .nil, output_key := "o", retry_count := 0 }

/-- C9 witness: the plan model accepts `retry_count = 0` and the theorem
evaluates at that step. -/
theorem C9_zero_retries_witness :
    c9Step.validFields = true
    ∧ execute_step envToolOk c9Step st0
        = (st0, .ok (ToolResult.errRes "t" "Max retries exceeded")) :=
  ⟨rfl, C9_zero_retries envToolOk c9Step st0 rfl⟩

/-!  ## C10 -/

/-- Step whose `output_key` collides with its own reserved metadata key
(the key validator accepts it). -/
def c10Step : ExecutionStep :=
  { step := 1, tool := "t", input := .nil, output_key := "step_1_metadata",
    retry_count := 1 }

/-- C10 counterexample: the plan model accepts `output_key =
"step_1_metadata"` for step 1; under an always-failing tool the execution
ends in a returned error result, yet the value under the step's `output_key`
— absent initially — has been written (by the per-attempt metadata
persistence, which targets the same key). -/
theorem C10_counterexample :
    c10Step.validFields = true
    ∧ (execute_step envToolErr c10Step st0).2 = .ok (ToolResult.errRes "t" "boom")
    ∧ storeGet st0.store c10Step.output_key = none
    ∧ (∃ d, storeGet (execute_step envToolErr c10Step st0).1.store c10Step.output_key
          = some (.vdict d)) :=
  ⟨rfl, rfl, rfl, ⟨_, rfl⟩⟩

/-!  ## C3 (counterexample) -/

/-- C3 counterexample: in an environment whose every `set` returns `false`,
the very first persistence write of `execute_plan` is rejected, yet
`execute_plan` runs to a normal summary (`Except.ok`), leaves the store
completely untouched (so `execution_status` is never `"failed"` — it is
never written at all), and does not abort: the executor ignores the boolean
returned by `set` at every call site. -/
theorem C3_counterexample :
    (storeSet allRej st0.store "execution_plan" fixPlan2.toValue).2 = false
    ∧ (execute_plan envAllRej fixPlan2 none st0).2
        = .ok { total_steps := 2, successful_steps := 0, failed_steps := 0,
                execution_log := (execute_plan envAllRej fixPlan2 none st0).1.log,
                plan := fixPlan2.toValue }
    ∧ (execute_plan envAllRej fixPlan2 none st0).1.store = [] :=
  ⟨rfl, rfl, rfl⟩

/-- C5 amended: for every environment, start step `k`, step list and state,
the orchestrator loop is extensionally the loop over only the steps numbered
`≥ k`: steps below `k` are not executed and leave no trace whatsoever in the
store, log, sleeps or clock (in particular no `"skipped"` record is
persisted for them), while the remaining steps execute exactly as they would
without the skipped ones present. -/
theorem C5_amended (env : Env) (k : Nat) (steps : List ExecutionStep) (st : ExecSt) :
    execPlanLoop env k steps st
      = execPlanLoop env k (steps.filter (fun s => !decide (s.step < k))) st := by
  induction steps generalizing st with
  | nil => rfl
  | cons s rest ih =>
      simp only [List.filter]
      by_cases h : s.step < k
      · have hd : (!decide (s.step < k)) = false := by simp [h]
        rw [hd]
        simp only [execPlanLoop, if_pos h]
        exact ih st
      · have hd : (!decide (s.step < k)) = true := by simp [h]
        rw [hd]
        simp only [execPlanLoop, if_neg h]
        rcases hres : execute_step env s st with ⟨st', res⟩
        cases res with
        | ok r =>
            by_cases hr : (decide (r.status = .error) && s.required) = true
            · simp [hr]
            · simp only [Bool.not_eq_true] at hr
              simp [hr, ih]
        | error e => simp

/-!  ## C6 -/

/-- Step fixture: two attempts with a 5-second timeout. -/
def c6TimeoutStep : ExecutionStep :=
  { step := 1, tool := "t", input := .nil, output_key := "o", retry_count := 2,
    timeout := some 5 }

/-- C6 counterexample: under an always-timing-out tool, the step retries
(the persisted record shows `attempts = 2`, so a retryable timeout failure
occurred on non-final attempt 0), yet the trace of performed sleeps is empty
— the timeout handler `continue`s without the `2^i`-second backoff that the
claim asserts for every retryable failure. -/
theorem C6_counterexample :
    (execute_step envToolTimeout c6TimeoutStep st0).1.sleeps = []
    ∧ (∃ d, storeGet (execute_step envToolTimeout c6TimeoutStep st0).1.store "step_1_metadata"
          = some (.vdict d)
        ∧ VDict.lookup d "attempts" = some (.vnat 2)
        ∧ VDict.lookup d "error" = some (.vstr "Timeout after 5.0s")) :=
  ⟨rfl, ⟨_, rfl, rfl, rfl⟩⟩

/-!  ## C2 -/

theorem storeGet_storeSet_self (rej : String → Value → Bool) (s : Store)
    (k : String) (v : Value) (h : rej k v = false) :
    storeGet (storeSet rej s k v).1 k = some v := by
  unfold storeSet
  rw [if_neg (by simp [h])]
  simp [storeGet]

/-- Resolving the input `{"x": "${missing_key}"}` against any store lacking
`missing_key` raises the variable-not-found error. -/
theorem resolve_missing_key (store : Store)
    (h : storeGet store "missing_key" = none) :
    resolve_variables store (.cons "x" (.vstr "${missing_key}") .nil)
      = .error "Variable not found in state: missing_key" := by
  have h1 : resolve_value store "${missing_key}"
      = .error "Variable not found in state: missing_key" := by
    have hscan : scanRef "${missing_key}".toList = some "missing_key".toList := rfl
    unfold resolve_value
    rw [hscan]
    show resolvePath store "missing_key" = _
    unfold resolvePath
    rw [if_neg (by decide)]
    rw [h]
    rfl
  simp only [resolve_variables, h1]

/-- The retry loop on a step whose input refers to the never-written key
`missing_key`: every attempt fails in resolution (the loop writes only the
step metadata key, which differs from `missing_key`), the backoff sleeps run
between attempts, and on the final attempt the error is re-raised after the
metadata record — `attempts = a + r`, status `failed`, the resolution error
message — is persisted. -/
theorem execStepGo_missing_key (env : Env) (step : ExecutionStep) (sk : String)
    (hres : ∀ store', storeGet store' "missing_key" = none →
      resolve_variables store' step.input
        = .error "Variable not found in state: missing_key")
    (hk : ¬ (sk ++ "_metadata" = "missing_key"))
    (hrej : ∀ k v, env.rej k v = false) :
    ∀ (r a : Nat) (m : StepMetadata) (st : ExecSt),
      1 ≤ r → storeGet st.store "missing_key" = none →
      (execStepGo env step sk m a r st).2
          = .error "Variable not found in state: missing_key"
      ∧ (∃ dd, storeGet (execStepGo env step sk m a r st).1.store (sk ++ "_metadata")
            = some (.vdict dd)
          ∧ VDict.lookup dd "attempts" = some (.vnat (a + r))
          ∧ VDict.lookup dd "status" = some (.vstr "failed")
          ∧ VDict.lookup dd "error"
              = some (.vstr "Variable not found in state: missing_key")) := by
  intro r
  induction r with
  | zero => intro a m st hr; omega
  | succ r' ih =>
      intro a m st _ hmiss
      have hset : ∀ v : Value,
          storeGet (storeSet env.rej st.store (sk ++ "_metadata") v).1 "missing_key"
            = none :=
        fun v => (storeGet_storeSet_ne env.rej st.store _ _ v hk).trans hmiss
      simp only [execStepGo, stNow, stSet]
      rw [hres _ (hset _)]
      dsimp only
      by_cases hr' : r' = 0
      · subst hr'
        rw [if_neg (by simp)]
        refine ⟨rfl, ?_⟩
        refine ⟨_, storeGet_storeSet_self _ _ _ _ (hrej _ _), ?_, ?_, ?_⟩
        · simp [StepMetadata.toValue, VDict.ofList, VDict.lookup]
        · simp [StepMetadata.toValue, VDict.ofList, VDict.lookup, StepStatus.toStr]
        · simp [StepMetadata.toValue, VDict.ofList, VDict.lookup, optStrToValue]
      · rw [if_pos hr']
        rw [show a + (r' + 1) = (a + 1) + r' by omega]
        apply ih
        · exact Nat.one_le_iff_ne_zero.mpr hr'
        · exact hset _

/-- Step fixture whose input references the never-written key. -/
def c2Step : ExecutionStep :=
  { step := 1, tool := "t", input := .cons "x" (.vstr "${missing_key}") .nil,
    output_key := "o", retry_count := 2 }

/-- C2 counterexample: with `retry_count = 2` and an empty store, the step
does **not** surface as a returned error result: `execute_step` re-raises the
resolution error on the final attempt (`Except.error`), so no `ToolResult`
is ever returned to the orchestrator's required/not-required policy. -/
theorem C2_counterexample :
    (execute_step envToolOk c2Step st0).2
        = .error "Variable not found in state: missing_key"
    ∧ ∀ tr : ToolResult, (execute_step envToolOk c2Step st0).2 ≠ .ok tr :=
  ⟨rfl, fun _ h => Except.noConfusion h⟩

/-- C2 amended: a step with `retry_count = n ≥ 1` whose input references the
never-written key `missing_key` retries the resolution failure like any
other failure and, after exhausting all attempts, fails with the persisted
record showing `attempts == retry_count` and status `failed` — but the
failure is re-raised to `execute_plan` as an exception (the generic-handler
final-attempt path), not returned as an error `ToolResult` to the
required/not-required policy. -/
theorem C2_amended (env : Env) (step : ExecutionStep) (st : ExecSt)
    (hn : 1 ≤ step.retry_count)
    (hinput : step.input = .cons "x" (.vstr "${missing_key}") .nil)
    (hstep : step.step = 1)
    (hrej : ∀ k v, env.rej k v = false)
    (hmiss : storeGet st.store "missing_key" = none) :
    (execute_step env step st).2 = .error "Variable not found in state: missing_key"
    ∧ (∃ dd, storeGet (execute_step env step st).1.store "step_1_metadata"
          = some (.vdict dd)
        ∧ VDict.lookup dd "attempts" = some (.vnat step.retry_count)
        ∧ VDict.lookup dd "status" = some (.vstr "failed")) := by
  have hres : ∀ store', storeGet store' "missing_key" = none →
      resolve_variables store' step.input
        = .error "Variable not found in state: missing_key" := by
    intro store' h
    rw [hinput]
    exact resolve_missing_key store' h
  have hmain := execStepGo_missing_key env step ("step_" ++ toString step.step)
    hres (by rw [hstep]; decide) hrej step.retry_count 0 {} st hn hmiss
  rcases hmain with ⟨h1, dd, hdd, hatt, hstat, _⟩
  have hkeyeq : "step_" ++ toString step.step ++ "_metadata" = "step_1_metadata" := by
    rw [hstep]; rfl
  rw [hkeyeq] at hdd
  exact ⟨h1, dd, hdd, by simpa using hatt, hstat⟩

/-- C2 witness: the amended theorem evaluated at the concrete fixture. -/
theorem C2_amended_witness :
    (execute_step envToolOk c2Step st0).2
        = .error "Variable not found in state: missing_key"
    ∧ (∃ dd, storeGet (execute_step envToolOk c2Step st0).1.store "step_1_metadata"
          = some (.vdict dd)
        ∧ VDict.lookup dd "attempts" = some (.vnat 2)
        ∧ VDict.lookup dd "status" = some (.vstr "failed")) :=
  C2_amended envToolOk c2Step st0 (by decide) rfl rfl (fun _ _ => rfl) rfl

/-!  ## C3 (amended) -/

/-- If every resolution of the step's input succeeds and the tool oracle
never raises, the retry loop never re-raises: it always returns a
`ToolResult` (`Except.ok`) — no matter which writes the store rejects. -/
theorem execStepGo_no_raise (env : Env) (step : ExecutionStep) (sk : String)
    (htool : ∀ args a msg, env.tools step.tool args a ≠ .exn msg)
    (hres : ∀ store', ∃ d, resolve_variables store' step.input = .ok d) :
    ∀ (r a : Nat) (m : StepMetadata) (st : ExecSt),
      ∃ tr, (execStepGo env step sk m a r st).2 = .ok tr := by
  intro r
  induction r with
  | zero => intro a m st; exact ⟨_, rfl⟩
  | succ r' ih =>
      intro a m st
      simp only [execStepGo, stNow, stSet]
      obtain ⟨d, hd⟩ := hres _
      rw [hd]
      dsimp only
      cases htt : env.tools step.tool d a with
      | ret tr =>
          dsimp only
          by_cases hs : tr.status = .error
          · rw [if_pos hs]
            by_cases hr' : r' = 0
            · rw [if_neg (by simp [hr'])]
              exact ⟨_, rfl⟩
            · rw [if_pos hr']
              exact ih _ _ _
          · rw [if_neg hs]
            exact ⟨_, rfl⟩
      | timeout =>
          dsimp only
          by_cases hr' : r' = 0
          · rw [if_neg (by simp [hr'])]
            exact ⟨_, rfl⟩
          · rw [if_pos hr']
            exact ih _ _ _
      | exn msg => exact absurd htt (htool _ _ _)

/-- If every step of the list has a benign tool and resolvable inputs, the
orchestrator loop exits normally (no re-raised exception), again regardless
of rejected writes. -/
theorem execPlanLoop_no_raise (env : Env) (k : Nat) :
    ∀ (steps : List ExecutionStep) (st : ExecSt),
      (∀ stp ∈ steps, (∀ args a msg, env.tools stp.tool args a ≠ .exn msg)
        ∧ ∀ store', ∃ d, resolve_variables store' stp.input = .ok d) →
      (execPlanLoop env k steps st).2 = none := by
  intro steps
  induction steps with
  | nil => intro st _; rfl
  | cons s rest ih =>
      intro st hall
      have hs := hall s (List.mem_cons_self s rest)
      have hrest := fun stp hm => hall stp (List.mem_cons_of_mem _ hm)
      simp only [execPlanLoop]
      by_cases hlt : s.step < k
      · rw [if_pos hlt]
        exact ih st hrest
      · rw [if_neg hlt]
        obtain ⟨tr, htr⟩ := execStepGo_no_raise env s ("step_" ++ toString s.step)
          hs.1 hs.2 s.retry_count 0 {} st
        have htr' : (execute_step env s st).2 = .ok tr := htr
        rcases hx : execute_step env s st with ⟨st', res⟩
        rw [hx] at htr'
        simp only at htr'
        subst htr'
        dsimp only
        by_cases hb : (decide (tr.status = .error) && s.required) = true
        · rw [if_pos hb]
        · rw [if_neg hb]
          exact ih st' hrest

/-- C3 amended: the executor discards the boolean returned by `set` at every
persistence write (plan snapshot, status, step metadata, step result,
`output_key`): a rejected write (`set` returning false) is silently ignored
rather than treated as a fatal failure.  Formally, whenever no step raises
(benign tools, resolvable inputs), `execute_plan` returns a normal summary
for **every** rejection oracle — including one rejecting every write — and
never aborts or sets the overall status to `"failed"` on account of a
rejected write. -/
theorem C3_amended (env : Env) (plan : ExecutionPlan) (sfs : Option Nat) (st : ExecSt)
    (htools : ∀ stp ∈ plan.steps, ∀ args a msg, env.tools stp.tool args a ≠ .exn msg)
    (hres : ∀ stp ∈ plan.steps, ∀ store', ∃ d, resolve_variables store' stp.input = .ok d) :
    ∃ s, (execute_plan env plan sfs st).2 = .ok s := by
  simp only [execute_plan]
  have hloop := execPlanLoop_no_raise env (startStepOf sfs) plan.steps
    (stSet env (stSet env st "execution_plan" plan.toValue) "execution_status"
      (.vstr "running"))
    (fun stp hm => ⟨htools stp hm, hres stp hm⟩)
  rcases hx : execPlanLoop env (startStepOf sfs) plan.steps
      (stSet env (stSet env st "execution_plan" plan.toValue) "execution_status"
        (.vstr "running"))
    with ⟨st', r⟩
  rw [hx] at hloop
  simp only at hloop
  subst hloop
  exact ⟨_, rfl⟩

/-- C3 witness: the amended theorem at the all-writes-rejected environment
and the two-step plan. -/
theorem C3_amended_witness :
    ∃ s, (execute_plan envAllRej fixPlan2 none st0).2 = .ok s :=
  C3_amended envAllRej fixPlan2 none st0
    (fun _ _ _ _ _ h => ToolOutcome.noConfusion h)
    (by
      intro stp hm store'
      simp only [fixPlan2, List.mem_cons, List.not_mem_nil, or_false] at hm
      rcases hm with rfl | rfl
      · exact ⟨.nil, rfl⟩
      · exact ⟨.nil, rfl⟩)

/-!  ## C6 (amended) -/

/-- Retry loop under a tool reporting a tool-level error on every attempt
(inputs resolvable): the loop appends exactly one backoff sleep of
`2^attempt` seconds between consecutive attempts and none after the final
attempt. -/
theorem execStepGo_toolerr_backoff (env : Env) (step : ExecutionStep) (sk : String)
    (htool : ∀ args a, ∃ tr, env.tools step.tool args a = .ret tr ∧ tr.status = .error)
    (hres : ∀ store', ∃ d, resolve_variables store' step.input = .ok d) :
    ∀ (r a : Nat) (m : StepMetadata) (st : ExecSt),
      (execStepGo env step sk m a r st).1.sleeps
        = st.sleeps ++ (List.range (r - 1)).map (fun i => 2 ^ (a + i)) := by
  intro r
  induction r with
  | zero => intro a m st; simp [execStepGo]
  | succ r' ih =>
      intro a m st
      simp only [execStepGo, stNow, stSet]
      obtain ⟨d, hd⟩ := hres _
      rw [hd]
      dsimp only
      obtain ⟨tr, htr, hstat⟩ := htool d a
      rw [htr]
      dsimp only
      rw [if_pos hstat]
      by_cases hr' : r' = 0
      · subst hr'
        rw [if_neg (by simp)]
        simp
      · rw [if_pos hr']
        rw [ih]
        obtain ⟨k, rfl⟩ := Nat.exists_eq_succ_of_ne_zero hr'
        dsimp only
        simp only [Nat.succ_sub_one, Nat.add_sub_cancel]
        rw [List.range_succ_eq_map, List.map_cons, List.map_map, List.append_assoc,
            List.singleton_append]
        have hmap : List.map (fun i => 2 ^ (a + 1 + i)) (List.range k)
            = List.map ((fun i => 2 ^ (a + i)) ∘ Nat.succ) (List.range k) := by
          apply List.map_congr_left
          intro i _
          simp only [Function.comp_apply]
          congr 1
          omega
        rw [hmap]
        simp only [Nat.add_zero]

/-- Retry loop under a tool timing out on every attempt (inputs resolvable):
no backoff sleep is ever performed — the timeout handler retries
immediately. -/
theorem execStepGo_timeout_no_backoff (env : Env) (step : ExecutionStep) (sk : String)
    (htool : ∀ args a, env.tools step.tool args a = .timeout)
    (hres : ∀ store', ∃ d, resolve_variables store' step.input = .ok d) :
    ∀ (r a : Nat) (m : StepMetadata) (st : ExecSt),
      (execStepGo env step sk m a r st).1.sleeps = st.sleeps := by
  intro r
  induction r with
  | zero => intro a m st; rfl
  | succ r' ih =>
      intro a m st
      simp only [execStepGo, stNow, stSet]
      obtain ⟨d, hd⟩ := hres _
      rw [hd]
      dsimp only
      rw [htool]
      dsimp only
      by_cases hr' : r' = 0
      · rw [if_neg (by simp [hr'])]
      · rw [if_pos hr']
        rw [ih]

/-- C6 amended: between consecutive attempts the runner sleeps `2^i` seconds
(0-indexed attempt `i`) after a **tool-level error result**, so an
always-erroring tool with `retry_count = n` produces exactly the sleep trace
`2^0, …, 2^(n-2)`; after a **timeout**, however, the runner retries
immediately — an always-timing-out tool produces no sleeps at all. -/
theorem C6_amended :
    (∀ (env : Env) (step : ExecutionStep) (st : ExecSt),
      (∀ args a, ∃ tr, env.tools step.tool args a = .ret tr ∧ tr.status = .error) →
      (∀ store', ∃ d, resolve_variables store' step.input = .ok d) →
      (execute_step env step st).1.sleeps
        = st.sleeps ++ (List.range (step.retry_count - 1)).map (fun i => 2 ^ i))
    ∧ (∀ (env : Env) (step : ExecutionStep) (st : ExecSt),
      (∀ args a, env.tools step.tool args a = .timeout) →
      (∀ store', ∃ d, resolve_variables store' step.input = .ok d) →
      (execute_step env step st).1.sleeps = st.sleeps) := by
  constructor
  · intro env step st htool hres
    unfold execute_step
    rw [execStepGo_toolerr_backoff env step _ htool hres]
    simp
  · intro env step st htool hres
    unfold execute_step
    rw [execStepGo_timeout_no_backoff env step _ htool hres]

/-- Step fixture: three attempts, always-erroring tool. -/
def c6ErrStep : ExecutionStep :=
  { step := 1, tool := "t", input := .nil, output_key := "o", retry_count := 3 }

/-- C6 witness: three error attempts sleep `2^0 = 1` then `2^1 = 2` seconds;
two timeout attempts sleep not at all. -/
theorem C6_amended_witness :
    (execute_step envToolErr c6ErrStep st0).1.sleeps = [1, 2]
    ∧ (execute_step envToolTimeout c6TimeoutStep st0).1.sleeps = [] := by
  constructor
  · have h := C6_amended.1 envToolErr c6ErrStep st0
      (fun _ _ => ⟨ToolResult.errRes "t" "boom", rfl, rfl⟩)
      (fun _ => ⟨.nil, rfl⟩)
    rw [h]
    rfl
  · exact C6_amended.2 envToolTimeout c6TimeoutStep st0
      (fun _ _ => rfl) (fun _ => ⟨.nil, rfl⟩)

/-!  ## C7 (amended) -/

theorem mk_toList (s : String) : String.mk s.toList = s := rfl

/-- C7 amended: when a reference's path is dotted and its **first segment**
is absent from the store, the base lookup yields `None`, and whenever the
second segment does not begin with an underscore — so it is not among
`None`'s attributes, which are exactly the dunder names — the first
navigation step fails with the path-navigation error
`Cannot resolve path: <full path>` naming the full path: the same error as
reaching a non-mapping value mid-path, and **not** the
`Variable not found in state` error that a missing simple key produces.
(An underscore-led second segment can name a dunder attribute of `None`,
e.g. `__class__`; the source then resolves it via `getattr` instead of
raising, which is why that case is excluded here.) -/
theorem C7_amended (store : Store) (s varPath : String) (p0 q0 : List Char)
    (ps : List (List Char))
    (hscan : scanRef s.toList = some varPath.toList)
    (hdot : varPath.toList.contains '.' = true)
    (hsplit : splitDot varPath.toList = p0 :: q0 :: ps)
    (hq : headIsUnderscore (String.mk q0) = false)
    (hmiss : storeGet store (String.mk p0) = none) :
    resolve_value store s = .error ("Cannot resolve path: " ++ varPath) := by
  unfold resolve_value
  rw [hscan]
  dsimp only
  rw [mk_toList]
  unfold resolvePath
  rw [if_pos hdot, hsplit]
  dsimp only [List.map]
  rw [hmiss]
  dsimp only [Option.getD]
  unfold navigatePath
  rw [if_neg (by simp [hq])]

/-- C7 witness: the amended theorem at the concrete dotted reference
`${missing.output}` (second segment `output` is underscore-free) over the
empty store. -/
theorem C7_amended_witness :
    resolve_value [] "${missing.output}"
      = .error "Cannot resolve path: missing.output" :=
  C7_amended [] "${missing.output}" "missing.output" "missing".toList
    "output".toList [] rfl rfl rfl rfl rfl

/-!  ## C8 -/

theorem scanRef_append_of_no_dollar (a rest : List Char) (h : '$' ∉ a) :
    scanRef (a ++ rest) = scanRef rest := by
  induction a with
  | nil => rfl
  | cons c cs ih =>
      have hc : ¬ (c = '$') := fun he => h (he ▸ List.mem_cons_self c cs)
      have hcs : '$' ∉ cs := fun hm => h (List.mem_cons_of_mem _ hm)
      simp only [List.cons_append, scanRef]
      rw [if_neg hc]
      exact ih hcs

theorem upToBrace_append (p b : List Char) (h : '}' ∉ p) :
    upToBrace (p ++ '}' :: b) = some p := by
  induction p with
  | nil => simp [upToBrace]
  | cons c cs ih =>
      have hc : ¬ (c = '}') := fun he => h (he ▸ List.mem_cons_self c cs)
      have hcs : '}' ∉ cs := fun hm => h (List.mem_cons_of_mem _ hm)
      simp only [List.cons_append, upToBrace, List.append_eq]
      rw [if_neg hc, ih hcs]
      rfl

/-- At a `${`, a non-empty brace-free body terminated by `}` is matched and
captured, whatever follows the closing brace. -/
theorem scanRef_at_match (p b : List Char) (hp : p ≠ []) (hbrace : '}' ∉ p) :
    scanRef ('$' :: '{' :: (p ++ '}' :: b)) = some p := by
  rw [scanRef]
  rw [if_pos rfl]
  rw [if_pos rfl]
  rw [upToBrace_append p b hbrace]
  dsimp only
  rw [if_neg (by simpa [List.isEmpty_iff] using hp)]

/-- C8: a string containing no `${...}` reference resolves to itself
unchanged; a string of the shape `<prefix>${<path>}<suffix>` — where the
prefix contains no `$` (so this is the first match), the path is non-empty
and brace-free, and the suffix is arbitrary (it may contain further
references) — resolves to exactly the resolution of that first path: the
whole string is replaced, there is no partial substitution and later
references are ignored. -/
theorem C8_first_match_wins (store : Store) :
    (∀ s : String, scanRef s.toList = none → resolve_value store s = .ok (.vstr s))
    ∧ (∀ (a p b : List Char), '$' ∉ a → '}' ∉ p → p ≠ [] →
        resolve_value store (String.mk (a ++ '$' :: '{' :: (p ++ '}' :: b)))
          = resolvePath store (String.mk p)) := by
  constructor
  · intro s h
    unfold resolve_value
    rw [h]
  · intro a p b ha hb hp
    unfold resolve_value
    rw [show (String.mk (a ++ '$' :: '{' :: (p ++ '}' :: b))).toList
          = a ++ '$' :: '{' :: (p ++ '}' :: b) from rfl]
    rw [scanRef_append_of_no_dollar a _ ha, scanRef_at_match p b hp hb]

/-- C8 witness: `"no refs here"` is returned unchanged; in
`"pre ${k} post${other}"` the first reference `k` wins and the whole string
resolves to the stored value `42`. -/
theorem C8_first_match_wins_witness :
    resolve_value [("k", .vnat 42)] "no refs here" = .ok (.vstr "no refs here")
    ∧ resolve_value [("k", .vnat 42)]
        (String.mk ("pre ".toList ++ '$' :: '{' :: ("k".toList ++ '}' :: " post${other}".toList)))
        = resolvePath [("k", .vnat 42)] (String.mk "k".toList) :=
  ⟨(C8_first_match_wins [("k", .vnat 42)]).1 "no refs here" rfl,
   (C8_first_match_wins [("k", .vnat 42)]).2 "pre ".toList "k".toList
     " post${other}".toList (by decide) (by decide) (by decide)⟩

/-!  ## C10 (amended) -/

/-- Loop invariant for the retry state machine: either the value under the
step's `output_key` is exactly what it was when the loop started (the loop
wrote only the step metadata key), or the loop returned a `ToolResult` whose
status is not `error` (the success path, the only one that writes
`output_key` and the step result key). -/
theorem execStepGo_output_preserved (env : Env) (step : ExecutionStep) (sk : String)
    (hkey : ¬ (sk ++ "_metadata" = step.output_key)) :
    ∀ (r a : Nat) (m : StepMetadata) (st : ExecSt),
      storeGet (execStepGo env step sk m a r st).1.store step.output_key
          = storeGet st.store step.output_key
      ∨ ∃ tr, (execStepGo env step sk m a r st).2 = .ok tr
          ∧ ¬ (tr.status = .error) := by
  intro r
  induction r with
  | zero => intro a m st; exact .inl rfl
  | succ r' ih =>
      intro a m st
      simp only [execStepGo, stNow, stSet]
      split
      · -- resolution error → generic handler
        by_cases hr' : r' = 0
        · rw [if_neg (by simp [hr'])]
          exact .inl ((storeGet_storeSet_ne _ _ _ _ _ hkey).trans
            (storeGet_storeSet_ne _ _ _ _ _ hkey))
        · rw [if_pos hr']
          rcases ih (a + 1) _ _ with h | h
          · exact .inl (h.trans (storeGet_storeSet_ne _ _ _ _ _ hkey))
          · exact .inr h
      · -- resolution succeeded; case on the tool outcome
        rename_i d _
        cases htt : env.tools step.tool d a with
        | timeout =>
            dsimp only
            by_cases hr' : r' = 0
            · rw [if_neg (by simp [hr'])]
              exact .inl ((storeGet_storeSet_ne _ _ _ _ _ hkey).trans
                (storeGet_storeSet_ne _ _ _ _ _ hkey))
            · rw [if_pos hr']
              rcases ih (a + 1) _ _ with h | h
              · exact .inl (h.trans (storeGet_storeSet_ne _ _ _ _ _ hkey))
              · exact .inr h
        | exn msg =>
            dsimp only
            by_cases hr' : r' = 0
            · rw [if_neg (by simp [hr'])]
              exact .inl ((storeGet_storeSet_ne _ _ _ _ _ hkey).trans
                (storeGet_storeSet_ne _ _ _ _ _ hkey))
            · rw [if_pos hr']
              rcases ih (a + 1) _ _ with h | h
              · exact .inl (h.trans (storeGet_storeSet_ne _ _ _ _ _ hkey))
              · exact .inr h
        | ret tr =>
            dsimp only
            by_cases hs : tr.status = .error
            · rw [if_pos hs]
              by_cases hr' : r' = 0
              · rw [if_neg (by simp [hr'])]
                exact .inl ((storeGet_storeSet_ne _ _ _ _ _ hkey).trans
                  (storeGet_storeSet_ne _ _ _ _ _ hkey))
              · rw [if_pos hr']
                rcases ih (a + 1) _ _ with h | h
                · exact .inl (h.trans (storeGet_storeSet_ne _ _ _ _ _ hkey))
                · exact .inr h
            · rw [if_neg hs]
              exact .inr ⟨tr, rfl, hs⟩

/-- C10 amended: **provided** the step's `output_key` differs from the
step's reserved metadata key `step_<n>_metadata` (a collision the key
validator does allow — see the counterexample), any execution that does not
end in success (a returned error-status result, covering tool errors and
timeouts, or a re-raised exception) leaves the store value under
`output_key` exactly as it found it: `output_key` and the step-scoped result
key are written only on the success path. -/
theorem C10_amended (env : Env) (step : ExecutionStep) (st : ExecSt)
    (hkey : ¬ ("step_" ++ toString step.step ++ "_metadata" = step.output_key))
    (hfail : (∃ e, (execute_step env step st).2 = .error e)
           ∨ (∃ tr, (execute_step env step st).2 = .ok tr ∧ tr.status = .error)) :
    storeGet (execute_step env step st).1.store step.output_key
      = storeGet st.store step.output_key := by
  rcases execStepGo_output_preserved env step ("step_" ++ toString step.step) hkey
      step.retry_count 0 {} st with h | ⟨tr, htr, hst⟩
  · exact h
  · rcases hfail with ⟨e, he⟩ | ⟨tr', htr', hst'⟩
    · have : (execute_step env step st).2 = .ok tr := htr
      rw [he] at this
      exact Except.noConfusion this
    · have : (execute_step env step st).2 = .ok tr := htr
      rw [htr'] at this
      injection this with h1
      exact absurd (h1 ▸ hst') hst

/-- Step fixture with a non-colliding output key and one failing attempt. -/
def c10aStep : ExecutionStep :=
  { step := 1, tool := "t", input := .nil, output_key := "out", retry_count := 1 }

/-- C10 witness: the amended theorem at a failing step with the ordinary
(non-colliding) output key `out`: the key stays unwritten. -/
theorem C10_amended_witness :
    storeGet (execute_step envToolErr c10aStep st0).1.store "out"
      = storeGet st0.store "out" :=
  C10_amended envToolErr c10aStep st0 (by decide)
    (.inr ⟨ToolResult.errRes "t" "boom", rfl, rfl⟩)
